import Mathlib

/-!
Verification of the `binsize` executable-introspection core against its
specification.  The Rust sources in `src/exe.rs`, `src/link.rs` and
`src/demangle.rs` are shallowly embedded below: `usize` becomes `Nat` with an
explicit `2 ^ 64 - 1` bound where Rust's checked arithmetic matters, Rust
panics become `Option`/`none`, fallible functions return `Except String`.
Strings are modelled at the level of their character lists (all inputs of
interest are ASCII, so Rust byte positions coincide with character positions).
-/

namespace Binsize

/-! ## Data model (`src/exe.rs`) -/

/-- `SymbolKind` from `exe.rs`: kind of a retained symbol. -/
inductive SymbolKind where
  | Unknown
  | Function
  | Data
deriving DecidableEq

/-- `Symbol` from `exe.rs`: a demangled symbol with guessed crate, size, address, kind. -/
structure Symbol where
  name : String
  crate_name : String
  size : Nat
  addr : Nat
  kind : SymbolKind
deriving DecidableEq

/-- `Section` from `exe.rs` (renamed: `Section` would shadow common names). -/
structure ExeSection where
  name : String
  addr : Nat
  size : Nat
deriving DecidableEq

/-- `Segment` from `exe.rs`: a program header (address, loaded size). -/
structure Segment where
  addr : Nat
  size : Nat
deriving DecidableEq

/-- `ExecutableInfo` from `exe.rs`: the assembled model. -/
structure ExecutableInfo where
  symbols : List Symbol
  sections : List ExeSection
  segments : List Segment
deriving DecidableEq

/-- The `object` crate's symbol kind, collapsed to the three cases that
`parse` in `exe.rs` distinguishes (`Text`, `Data`, and the catch-all `_`). -/
inductive ObjSymbolKind where
  | Text
  | Data
  | Other
deriving DecidableEq

/-- A raw symbol-table entry as handed to `parse` by the `object` crate. -/
structure RawSymbolEntry where
  name : String
  size : Nat
  addr : Nat
  kind : ObjSymbolKind
deriving DecidableEq

/-! ## Demangling (`exe.rs` lines 104-131) -/

/-- Index of the last occurrence of `c`, as `bytes().rposition` computes it
(ASCII model: byte index = character index). -/
def lastIdxOf (c : Char) : List Char → Option Nat
  | [] => none
  | x :: xs =>
    match lastIdxOf c xs with
    | some i => some (i + 1)
    | none => if x = c then some 0 else none

/-- The trailing-hash strip in `exe.rs::demangle`: given the output of
`rustc_demangle`, find the last `:` and `drain((pos - 1)..)`.  When the last
`:` sits at byte position 0, `pos - 1` underflows `usize` and the program
panics; this is modelled as `none`. -/
def stripHash (name : String) : Option String :=
  match lastIdxOf ':' name.data with
  | none => some name
  | some 0 => none
  | some (p + 1) => some (String.mk (name.data.take p))

/-- `exe.rs::demangle`, with the external `rustc_demangle::demangle` passed in
as a function parameter `rustDemangle` (it is a third-party crate). -/
def exeDemangle (rustDemangle : String → String) (s : String) : Option String :=
  stripHash (rustDemangle s)

/-- ASCII restriction of the regex class `\w`. -/
def isWordChar (c : Char) : Bool :=
  ('0' ≤ c && c ≤ '9') || ('a' ≤ c && c ≤ 'z') || ('A' ≤ c && c ≤ 'Z') || c = '_'

/-- Matcher for the regex fragment `(\w+):` at the head of `l`: a maximal
nonempty word run followed immediately by a colon.  (Since a shortened `\w+`
run would leave a word character where `:` is required, greedy maximal munch
is exactly the regex's backtracking semantics here.)  Returns the captured
run and the remainder after the colon. -/
def wordRunColon (l : List Char) : Option (String × List Char) :=
  let run := l.takeWhile isWordChar
  let rest := l.dropWhile isWordChar
  if run.isEmpty then none
  else if rest.head? = some ':' then some (String.mk run, rest.tail)
  else none

/-- Does `l` start with the three characters `as `? -/
def startsWithAs : List Char → Bool
  | 'a' :: 's' :: ' ' :: _ => true
  | _ => false

/-- Remainders after each way the regex fragment `.+as ` can consume a prefix
of `l`, in the greedy (longest-`.+`-first) order the regex engine tries them:
positions `p ≥ 1` with `as ` at `p` and no newline inside the `.+` span. -/
def asCandidates (l : List Char) : List (List Char) :=
  (((List.range l.length).filter (fun p =>
      decide (1 ≤ p) && startsWithAs (l.drop p) && !((l.take p).contains '\n'))).reverse).map
    (fun p => l.drop (p + 3))

/-- Does `l` start with `dyn `? -/
def startsWithDyn : List Char → Bool
  | 'd' :: 'y' :: 'n' :: ' ' :: _ => true
  | _ => false

/-- The regex of `exe.rs::demangle_crate`, `^<?&?(.+as )?(dyn )?(\w+):`,
applied to an already demangled name; returns capture group 3, or `?` when
the regex does not match.  The optional elements are explored in the engine's
priority order (consume-first for `<?`, `&?`, `(dyn )?`; longest-first for
`(.+as )?`); the mandatory tail `(\w+):` is deterministic, and the first
complete alternative wins. -/
def exeCrateGuess (s : String) : String :=
  let l0 := s.data
  let o1 := if l0.head? = some '<' then [l0.tail, l0] else [l0]
  let o2 := o1.flatMap (fun l => if l.head? = some '&' then [l.tail, l] else [l])
  let o3 := o2.flatMap (fun l => asCandidates l ++ [l])
  let o4 := o3.flatMap (fun l => if startsWithDyn l then [l.drop 4, l] else [l])
  match o4.findSome? (fun l => (wordRunColon l).map Prod.fst) with
  | some c => c
  | none => "?"

/-- `exe.rs::demangle_crate`: runs the crate-guess regex on `demangle(s)`;
a panic inside `demangle` propagates. -/
def demangleCrate (rustDemangle : String → String) (s : String) : Option String :=
  (exeDemangle rustDemangle s).map exeCrateGuess

/-! ## The crate-name guess of `src/demangle.rs` -/

/-- If `pre` is a prefix of `l`, drop it, else leave `l` unchanged (one
optional literal element of the regex, e.g. `(mut )?`). -/
def stripLit (pre : List Char) (l : List Char) : List Char :=
  if pre.isPrefixOf l then l.drop pre.length else l

/-- A candidate `as (\w+):` match at the current position: `c` followed by
`rest` must read `as ` and then a word run and a colon. -/
def asUnitHere (c : Char) (rest : List Char) : Option String :=
  match rest with
  | s :: sp :: r2 =>
    if c = 'a' ∧ s = 's' ∧ sp = ' ' then (wordRunColon r2).map Prod.fst else none
  | _ => none

/-- The regex fragment `(.*as (\w+):)?` of `crate_name_from_demangled`: the
greedy `.*` selects the rightmost `as ` that is followed by a word run and a
colon (candidates beyond a newline are unreachable for `.*`), so the
recursion prefers a match found further right and falls back to the current
position. -/
def findAsUnit : List Char → Option String
  | [] => none
  | c :: rest =>
    if c = '\n' then none
    else (findAsUnit rest).elim (asUnitHere c rest) some

/-- `<?`: drop a leading `<` if present. -/
def dropLt (l : List Char) : List Char :=
  if l.head? = some '<' then l.tail else l

/-- `[&*]?`: drop a leading `&` or `*` if present. -/
def dropAmpStar (l : List Char) : List Char :=
  if l.head? = some '&' || l.head? = some '*' then l.tail else l

/-- The optional qualifier chain `<?[&*]?(mut )?(const )?(dyn )?` at the
start of the crate-guess regex of `demangle.rs`. -/
def qualStrip (l : List Char) : List Char :=
  stripLit ("dyn ".data) (stripLit ("const ".data) (stripLit ("mut ".data)
    (dropAmpStar (dropLt l))))

/-- `demangle.rs::crate_name_from_demangled`: the regex
`^<?[&*]?(mut )?(const )?(dyn )?((\w+):)?(.*as (\w+):)?` applied to `s`;
returns group 5 if nonempty, else group 7 if nonempty, else `?`.  Every
element of the pattern is optional, so the all-greedy path always completes
and no cross-element backtracking occurs. -/
def crate_name_from_demangled (s : String) : String :=
  match wordRunColon (qualStrip s.data) with
  | some (c, _) => c
  | none =>
    match findAsUnit (qualStrip s.data) with
    | some c => c
    | none => "?"

/-! ## Symbol assembly and zero-size repair (`exe.rs::parse`) -/

/-- Which `SymbolKind` `parse` assigns to an `object` symbol kind. -/
def kindOfObj : ObjSymbolKind → SymbolKind
  | .Text => .Function
  | .Data => .Data
  | .Other => .Unknown

/-- One `Symbol` as built inside `exe.symbols().map(...)` in `parse`:
`name` and `crate_name` both demangle the raw name (a panic in `demangle`
propagates as `none`). -/
def mkSymbol (rustDemangle : String → String) (e : RawSymbolEntry) : Option Symbol := do
  let nm ← exeDemangle rustDemangle e.name
  let cr ← demangleCrate rustDemangle e.name
  pure { name := nm, crate_name := cr, size := e.size, addr := e.addr, kind := kindOfObj e.kind }

/-- One iteration of the zero-size repair loop in `parse` (body of
`for i in 0..symbols.len() - 1`), acting on the current symbol list.
`symbols[i..].iter().skip_while(|s| s.addr == sym.addr).next()` is
`((l.drop i).dropWhile ...).head?`. -/
def fixStep (l : List Symbol) (i : Nat) : List Symbol :=
  match l[i]? with
  | none => l
  | some sym =>
    if sym.size = 0 then
      match ((l.drop i).dropWhile (fun s => s.addr == sym.addr)).head? with
      | some next => if sym.addr < next.addr then l.set i { sym with size := next.addr - sym.addr } else l
      | none => l
    else l

/-- The zero-size repair loop of `parse`.  On an empty symbol list
`symbols.len() - 1` underflows `usize` (debug: overflow panic; release: the
wrapped range makes `&symbols[0]` panic out of bounds), modelled as `none`. -/
def fixSizes (l : List Symbol) : Option (List Symbol) :=
  if l.length = 0 then none
  else some ((List.range (l.length - 1)).foldl fixStep l)

/-- `symbols.sort_by_key(|s| s.addr)`: sorts by ascending address.  Modelled
as an insertion sort on the strict key order; it agrees with Rust's stable
`sort_by_key` up to the relative order of equal-address entries (no claim
depends on that order: C1 takes the sorted list as its input, C3's inputs
retain at most one symbol, and C5 only uses membership). -/
def sortByAddr (l : List Symbol) : List Symbol :=
  l.insertionSort (fun s t => s.addr < t.addr)

/-- The symbol pipeline of `parse`: build symbols, drop `Unknown`-kind
entries, sort by ascending address, run the zero-size repair. -/
def parseSymbols (rustDemangle : String → String) (entries : List RawSymbolEntry) :
    Option (List Symbol) := do
  let syms ← entries.mapM (mkSymbol rustDemangle)
  let retained := syms.filter (fun s => decide (s.kind ≠ SymbolKind.Unknown))
  let sorted := sortByAddr retained
  let fixed ← fixSizes sorted
  pure fixed

/-- `exe.rs::parse` after the `object` crate has enumerated segments,
sections and symbol-table entries (that enumeration is third-party I/O; its
results are parameters here).  A panic is `none`. -/
def parseModel (rustDemangle : String → String) (segments : List Segment)
    (sections : List ExeSection) (entries : List RawSymbolEntry) :
    Option ExecutableInfo := do
  let symbols ← parseSymbols rustDemangle entries
  pure { symbols := symbols, sections := sections, segments := segments }

/-! ## Linker-script parsing (`src/link.rs`) -/

/-- ASCII restriction of the regex class `\s` (lines are split on `\n`
before matching, but `\n` is kept in the class for fidelity). -/
def isWsChar (c : Char) : Bool :=
  c = ' ' || c = '\t' || c = '\n' || c = '\r' || c = '\x0b' || c = '\x0c'

/-- `\s*`: skip whitespace. -/
def skipWs (l : List Char) : List Char := l.dropWhile isWsChar

/-- `(\w+)`: capture a maximal nonempty word run. -/
def capWord (l : List Char) : Option (List Char × List Char) :=
  match l.takeWhile isWordChar with
  | [] => none
  | w => some (w, l.dropWhile isWordChar)

/-- Require the literal character `c`. -/
def expectChar (c : Char) (l : List Char) : Option (List Char) :=
  match l with
  | x :: rest => if x = c then some rest else none
  | [] => none

/-- `VARIABLE_PATTERN`, `^\s*(\w+)\s*?=\s*(\w+)\s*;`, matched against one
line.  `\w`, `\s` and the literals are pairwise disjoint, so the greedy
`\w+`/`\s*` (and the lazy `\s*?`) are deterministic maximal munch, and the
leading `^` anchors the match at the start of the line.  Returns capture
groups 1 and 2. -/
def varCaptures (line : String) : Option (String × String) := do
  let l := skipWs line.data
  let (name, l) ← capWord l
  let l ← expectChar '=' (skipWs l)
  let (v, l) ← capWord (skipWs l)
  let _ ← expectChar ';' (skipWs l)
  pure (String.mk name, String.mk v)

/-- `MEM_REG_PATTERN`, `^\s*(\w+)\s*:\s*(\w+)\s*=\s*(\w+),\s*(\w+)\s*=\s*(\w+)`,
matched against one line (note: no `\s*` between the third group and the
comma).  Returns capture groups 1-5. -/
def memRegCaptures (line : String) :
    Option (String × String × String × String × String) := do
  let l := skipWs line.data
  let (name, l) ← capWord l
  let l ← expectChar ':' (skipWs l)
  let (k1, l) ← capWord (skipWs l)
  let l ← expectChar '=' (skipWs l)
  let (v1, l) ← capWord (skipWs l)
  let l ← expectChar ',' l
  let (k2, l) ← capWord (skipWs l)
  let l ← expectChar '=' (skipWs l)
  let (v2, _) ← capWord (skipWs l)
  pure (String.mk name, String.mk k1, String.mk v1, String.mk k2, String.mk v2)

/-- `usize::MAX`. -/
def USIZE_MAX : Nat := 2 ^ 64 - 1

/-- `char::to_digit(radix)`. -/
def digitVal (radix : Nat) (c : Char) : Option Nat :=
  let v? : Option Nat :=
    if '0' ≤ c ∧ c ≤ '9' then some (c.toNat - '0'.toNat)
    else if 'a' ≤ c ∧ c ≤ 'z' then some (c.toNat - 'a'.toNat + 10)
    else if 'A' ≤ c ∧ c ≤ 'Z' then some (c.toNat - 'A'.toNat + 10)
    else none
  match v? with
  | some v => if v < radix then some v else none
  | none => none

/-- Positive-digit accumulation of `usize::from_str_radix`: each step is
`checked_mul` then `checked_add`, which together fail exactly when the new
value exceeds `usize::MAX`. -/
def parseDigits (radix : Nat) : List Char → Nat → Option Nat
  | [], acc => some acc
  | c :: rest, acc =>
    match digitVal radix c with
    | some d =>
      if acc * radix + d ≤ USIZE_MAX then parseDigits radix rest (acc * radix + d) else none
    | none => none

/-- Negative-digit accumulation of `usize::from_str_radix` (after a `-`
sign): `checked_mul` then `checked_sub`, so any nonzero digit fails. -/
def parseDigitsNeg (radix : Nat) : List Char → Nat → Option Nat
  | [], acc => some acc
  | c :: rest, acc =>
    match digitVal radix c with
    | some d =>
      if acc * radix ≤ USIZE_MAX ∧ d ≤ acc * radix then parseDigitsNeg radix rest (acc * radix - d)
      else none
    | none => none

/-- `usize::from_str_radix` (also the semantics of `val.parse::<usize>()`
for `radix = 10`): optional `+`/`-` sign, then at least one digit. -/
def fromStrRadix (radix : Nat) (s : String) : Option Nat :=
  match s.data with
  | [] => none
  | '+' :: rest => if rest.isEmpty then none else parseDigits radix rest 0
  | '-' :: rest => if rest.isEmpty then none else parseDigitsNeg radix rest 0
  | l => parseDigits radix l 0

/-- `MemoryRegion` from `link.rs`.  The `f32` field `used_percentage` is not
modelled (floating point): `new` initializes it to `0.0`, the parser never
touches it, and only `use_segments_data` writes it. -/
structure MemoryRegion where
  name : String
  origin : Nat
  length : Nat
  used : Nat
deriving DecidableEq

/-- `MemoryRegion::new`. -/
def MemoryRegion.new (name : String) (origin length : Nat) : MemoryRegion :=
  { name := name, origin := origin, length := length, used := 0 }

/-- `MemoryRegion::bounds`: lower and upper bound of a region.  The upper
bound is the `usize` addition `self.origin + self.length`, which wraps
modulo `2^64` in release builds (debug builds would panic on overflow; the
C6 theorem's side conditions restrict to the overflow-free range, where the
two modes agree). -/
def MemoryRegion.bounds (r : MemoryRegion) : Nat × Nat :=
  (r.origin, (r.origin + r.length) % (USIZE_MAX + 1))

/-- `val.starts_with("0x")` (character-level; the strings are ASCII). -/
def startsWith0x (s : String) : Bool :=
  match s.data with
  | '0' :: 'x' :: _ => true
  | _ => false

/-- `val.strip_prefix("0x").unwrap()`. -/
def dropPfx0x (s : String) : String := String.mk (s.data.drop 2)

/-- `val.ends_with(c)` for a single character. -/
def endsWithChar (c : Char) (s : String) : Bool := s.data.getLast? = some c

/-- `val.strip_suffix(c).unwrap()` for a single character. -/
def dropSfx1 (s : String) : String := String.mk s.data.dropLast

/-- `MemoryRegion::parse_value`.  The `HashMap` is an association list whose
most recent insertion shadows older ones; error strings stand in for the
Rust error values (their exact text is irrelevant to the claims). -/
def parse_value (vars : List (String × Nat)) (val : String) : Except String Nat :=
  if startsWith0x val then
    match fromStrRadix 16 (dropPfx0x val) with
    | some n => .ok n
    | none => .error "invalid integer literal"
  else if endsWithChar 'K' val then
    match fromStrRadix 10 (dropSfx1 val) with
    | some n => .ok (n * 1024)
    | none => .error "invalid integer literal"
  else if endsWithChar 'M' val then
    match fromStrRadix 10 (dropSfx1 val) with
    | some n => .ok (n * 1024 * 1024)
    | none => .error "invalid integer literal"
  else
    match fromStrRadix 10 val with
    | some n => .ok n
    | none =>
      match vars.lookup val with
      | some n => .ok n
      | none => .error ("Cant find value for variable " ++ val)

/-- `MemoryRegion::parse_var`: parse the value and insert it. -/
def parse_var (vars : List (String × Nat)) (name val : String) :
    Except String (List (String × Nat)) :=
  (parse_value vars val).map (fun v => (name, v) :: vars)

/-- One iteration of the `for i in [2, 4]` loop of
`MemoryRegion::parse_region`: dispatch on whether the keyword capture is
`ORIGIN` or `LENGTH` and parse the value in the following capture group. -/
def assignSlot (vars : List (String × Nat)) (st : Nat × Nat) (kv : String × String) :
    Except String (Nat × Nat) :=
  if kv.1 = "ORIGIN" then (parse_value vars kv.2).map (fun n => (n, st.2))
  else if kv.1 = "LENGTH" then (parse_value vars kv.2).map (fun n => (st.1, n))
  else .error ("Expected ORIGIN or LENGTH, got " ++ kv.1)

/-- `MemoryRegion::parse_region` on the five capture groups (in this model a
successful match always yields all five groups, so the missing-capture error
branches of the Rust code are unreachable). -/
def parse_region (vars : List (String × Nat))
    (caps : String × String × String × String × String) : Except String MemoryRegion := do
  let (name, k1, v1, k2, v2) := caps
  let st1 ← assignSlot vars (0, 0) (k1, v1)
  let st2 ← assignSlot vars st1 (k2, v2)
  pure (MemoryRegion.new name st2.1 st2.2)

/-- The per-line body of the loop in `MemoryRegion::from_file`: try the
variable pattern, then the region pattern (both `if`s run; `?` aborts). -/
def lineStep (st : List (String × Nat) × List MemoryRegion) (line : String) :
    Except String (List (String × Nat) × List MemoryRegion) := do
  let (vars, regions) := st
  let vars ←
    match varCaptures line with
    | some (n, v) => parse_var vars n v
    | none => pure vars
  let regions ←
    match memRegCaptures line with
    | some caps => (parse_region vars caps).map (fun r => regions ++ [r])
    | none => pure regions
  pure (vars, regions)

/-- `MemoryRegion::from_file` on the list of lines of the script. -/
def from_file_lines (lines : List String) : Except String (List MemoryRegion) :=
  (lines.foldlM lineStep ([], [])).map Prod.snd

/-- `s.split("\n")` on the character list: split into newline-separated
pieces (an empty string yields one empty piece, like Rust's `split`). -/
def splitNl : List Char → List (List Char)
  | [] => [[]]
  | c :: rest =>
    match splitNl rest with
    | [] => [[c]]
    | h :: t => if c = '\n' then [] :: h :: t else (c :: h) :: t

/-- `MemoryRegion::from_file` on the script text (split on `\n`, as the Rust
code does after reading the file). -/
def from_file (script : String) : Except String (List MemoryRegion) :=
  from_file_lines ((splitNl script.data).map String.mk)

/-- The `used`-accumulation of `MemoryRegion::use_segments_data` for one
region: add the size of every segment whose address lies within the
inclusive bounds.  `reg.used += seg.size` is a `usize` addition, so it wraps
modulo `2^64` in release builds (debug builds would panic on overflow; the
C6 theorem's side conditions restrict to the overflow-free range). -/
def segUsed (reg : MemoryRegion) (segments : List Segment) : Nat :=
  segments.foldl
    (fun u seg => if reg.bounds.1 ≤ seg.addr ∧ seg.addr ≤ reg.bounds.2
      then (u + seg.size) % (USIZE_MAX + 1) else u)
    reg.used

/-- `MemoryRegion::use_segments_data` (the in-place loop as a map).  The
final `used_percentage` write is `f32` arithmetic and is not modelled. -/
def use_segments_data (regions : List MemoryRegion) (segments : List Segment) :
    List MemoryRegion :=
  regions.map (fun reg => { reg with used := segUsed reg segments })

/-- Decidable equality for `Except`, to let concrete parser results be
checked by `decide`. -/
instance {ε α : Type} [DecidableEq ε] [DecidableEq α] : DecidableEq (Except ε α)
  | .ok x, .ok y =>
    if h : x = y then isTrue (by rw [h]) else isFalse (fun hc => h (Except.ok.inj hc))
  | .error x, .error y =>
    if h : x = y then isTrue (by rw [h]) else isFalse (fun hc => h (Except.error.inj hc))
  | .ok _, .error _ => isFalse (fun hc => Except.noConfusion hc)
  | .error _, .ok _ => isFalse (fun hc => Except.noConfusion hc)

/-! ## Helper lemmas -/

/-- Names of defined variables never resolve through the literal branches of
`parse_value`: characterization of the undefined-variable error. -/
def valueUnresolvable (vars : List (String × Nat)) (v : String) : Prop :=
  startsWith0x v = false ∧ endsWithChar 'K' v = false ∧ endsWithChar 'M' v = false ∧
  fromStrRadix 10 v = none ∧ vars.lookup v = none

instance (vars : List (String × Nat)) (v : String) : Decidable (valueUnresolvable vars v) := by
  unfold valueUnresolvable; infer_instance

lemma parse_value_error_of_unresolvable (vars : List (String × Nat)) (v : String)
    (h : valueUnresolvable vars v) :
    parse_value vars v = Except.error ("Cant find value for variable " ++ v) := by
  obtain ⟨h1, h2, h3, h4, h5⟩ := h
  simp [parse_value, h1, h2, h3, h4, h5]

lemma foldl_if_add_mod (p : Segment → Prop) [DecidablePred p] (segments : List Segment)
    (a : Nat) (hbound : a + (segments.map (fun seg => if p seg then seg.size else 0)).sum
      ≤ USIZE_MAX) :
    segments.foldl (fun u seg => if p seg then (u + seg.size) % (USIZE_MAX + 1) else u) a
      = a + (segments.map (fun seg => if p seg then seg.size else 0)).sum := by
  induction segments generalizing a with
  | nil => simp
  | cons s t ih =>
    rw [List.foldl_cons]
    by_cases hp : p s
    · simp only [List.map_cons, List.sum_cons, hp, if_true] at hbound ⊢
      have hstep : a + s.size ≤ USIZE_MAX := by omega
      rw [Nat.mod_eq_of_lt (by omega : a + s.size < USIZE_MAX + 1)]
      rw [ih (a + s.size) (by omega)]
      omega
    · simp only [List.map_cons, List.sum_cons, hp, if_false] at hbound ⊢
      rw [ih a (by omega)]
      omega

lemma head?_dropWhile_mem {l : List Char} {p : Char → Bool} {x : Char}
    (h : (l.dropWhile p).head? = some x) : x ∈ l := by
  induction l with
  | nil => simp [List.dropWhile] at h
  | cons a t ih =>
    rw [List.dropWhile_cons] at h
    by_cases hp : p a = true
    · simp [hp] at h; exact List.mem_cons_of_mem a (ih h)
    · simp [hp] at h; subst h; exact List.mem_cons_self _ _

lemma wordRunColon_eq_none_of_no_colon (l : List Char) (h : ∀ c ∈ l, c ≠ ':') :
    wordRunColon l = none := by
  unfold wordRunColon
  by_cases he : (l.takeWhile isWordChar).isEmpty
  · simp [he]
  · have hc : ¬((l.dropWhile isWordChar).head? = some ':') := by
      intro hcol
      exact h ':' (head?_dropWhile_mem hcol) rfl
    simp [he, hc]

lemma asUnitHere_eq_none_of_no_colon (c : Char) (rest : List Char)
    (h : ∀ x ∈ rest, x ≠ ':') : asUnitHere c rest = none := by
  match rest with
  | [] => rfl
  | [_] => rfl
  | s :: sp :: r2 =>
    have hr2 : ∀ x ∈ r2, x ≠ ':' := fun x hx =>
      h x (List.mem_cons_of_mem s (List.mem_cons_of_mem sp hx))
    simp [asUnitHere, wordRunColon_eq_none_of_no_colon r2 hr2]

lemma findAsUnit_eq_none_of_no_colon (l : List Char) (h : ∀ c ∈ l, c ≠ ':') :
    findAsUnit l = none := by
  induction l with
  | nil => rfl
  | cons c rest ih =>
    have hrest : ∀ x ∈ rest, x ≠ ':' := fun x hx => h x (List.mem_cons_of_mem c hx)
    unfold findAsUnit
    rw [ih hrest]
    simp [asUnitHere_eq_none_of_no_colon c rest hrest]

lemma qualStrip_subset (l : List Char) : qualStrip l ⊆ l := by
  have hlt : dropLt l ⊆ l := by
    unfold dropLt; split
    · exact List.Sublist.subset (List.tail_sublist l)
    · exact fun _ h => h
  have hamp : dropAmpStar (dropLt l) ⊆ dropLt l := by
    unfold dropAmpStar; split
    · exact List.Sublist.subset (List.tail_sublist _)
    · exact fun _ h => h
  have hstrip : ∀ (pre m : List Char), stripLit pre m ⊆ m := by
    intro pre m; unfold stripLit; split
    · exact List.Sublist.subset (List.drop_sublist _ _)
    · exact fun _ h => h
  unfold qualStrip
  intro x hx
  exact hlt (hamp (hstrip _ _ (hstrip _ _ (hstrip _ _ hx))))

/-! ## Claim theorems -/

/-- C2, counterexample: parsing the exact two-line script from the claim
returns `Ok` with an empty region list, not one `BOOTLOADER` region — the
region pattern is anchored at line start, and on the single line
`MEMORY { BOOTLOADER : ... }` the leading word `MEMORY` is followed by `{`,
not `:`, so the line matches nothing. -/
theorem c2_two_line_script_yields_no_region :
    from_file "__boot_size = 0x10000;\nMEMORY \x7b BOOTLOADER : ORIGIN = 0x8000000, LENGTH = __boot_size \x7d"
      = Except.ok [] := by
  decide

/-- C2, amended: with the region declaration on its own line (the layout the
source documents), the script yields exactly one region named `BOOTLOADER`
with origin `0x8000000` and length `65536`, and `used` still zero (the
omitted `f32` field `used_percentage` is likewise still `0.0`, set by
`MemoryRegion::new` and untouched by the parser). -/
theorem c2_amended_own_line_script_yields_bootloader :
    from_file "__boot_size = 0x10000;\nMEMORY \x7b\nBOOTLOADER : ORIGIN = 0x8000000, LENGTH = __boot_size \x7d"
      = Except.ok [{ name := "BOOTLOADER", origin := 0x8000000, length := 65536, used := 0 }] := by
  decide

/-- C3: the symbol pipeline of `parse` panics (modelled as `none`) on the
inputs the claim says must succeed: an empty symbol table, a symbol table
whose only entry is discarded as Unknown-kind (the repair loop then
evaluates `0 - 1` on `usize`), and a retained entry whose raw name `:x` has
its only `:` at position 0 (the trailing-hash strip then evaluates
`pos - 1` on `usize`). -/
theorem c3_parse_panics_on_claimed_inputs :
    parseSymbols id [] = none ∧
    parseSymbols id [{ name := "x", size := 0, addr := 0, kind := ObjSymbolKind.Other }] = none ∧
    parseSymbols id [{ name := ":x", size := 0, addr := 0, kind := ObjSymbolKind.Text }] = none :=
  ⟨rfl, rfl, rfl⟩

/-- C10: the literal-suffix checks of `parse_value` run before the variable
lookup: a value that looks like a hex literal (or decimal with `K`/`M`
suffix) but fails to parse in the corresponding base is an error for every
variable table, even one defining a variable of exactly that name. -/
theorem c10_literal_checks_precede_variable_lookup (vars : List (String × Nat)) (val : String)
    (h : (startsWith0x val = true ∧ fromStrRadix 16 (dropPfx0x val) = none)
       ∨ (startsWith0x val = false ∧ endsWithChar 'K' val = true ∧
          fromStrRadix 10 (dropSfx1 val) = none)
       ∨ (startsWith0x val = false ∧ endsWithChar 'K' val = false ∧
          endsWithChar 'M' val = true ∧ fromStrRadix 10 (dropSfx1 val) = none)) :
    ∃ msg, parse_value vars val = Except.error msg := by
  rcases h with ⟨h1, h2⟩ | ⟨h1, h2, h3⟩ | ⟨h1, h2, h3, h4⟩
  · exact ⟨"invalid integer literal", by simp [parse_value, h1, h2]⟩
  · exact ⟨"invalid integer literal", by simp [parse_value, h1, h2, h3]⟩
  · exact ⟨"invalid integer literal", by simp [parse_value, h1, h2, h3, h4]⟩

/-- C10 witness: `0xZZ` is defined as a variable, yet `parse_value` errors
on it (the lookup is never consulted). -/
theorem c10_witness :
    ((([("0xZZ", 5)] : List (String × Nat)).lookup "0xZZ" = some 5) ∧
      ∃ msg, parse_value [("0xZZ", 5)] "0xZZ" = Except.error msg) :=
  ⟨by decide, c10_literal_checks_precede_variable_lookup [("0xZZ", 5)] "0xZZ"
    (Or.inl ⟨by decide, by decide⟩)⟩

/-- C6: after the correlator runs, each region's `used` equals the sum of
the sizes of the segments whose start address lies in the inclusive window
`[origin, origin + length]`; the formula holds for every region index
independently, so a segment inside several regions' bounds is added to every
one of them (no deduplication).  The side conditions keep the `usize`
additions of the source in range (`origin + length` representable, total
segment size within the address space), so the wrapped arithmetic the code
performs coincides with the stated sum. -/
theorem c6_correlator_used_sum (regions : List MemoryRegion) (segments : List Segment)
    (h0 : ∀ r ∈ regions, r.used = 0)
    (hb : ∀ r ∈ regions, r.origin + r.length ≤ USIZE_MAX)
    (hs : (segments.map Segment.size).sum ≤ USIZE_MAX) :
    ∀ i (h : i < regions.length),
      (use_segments_data regions segments)[i]? =
        some { regions[i] with used :=
          (segments.map (fun seg =>
            if regions[i].origin ≤ seg.addr ∧ seg.addr ≤ regions[i].origin + regions[i].length
            then seg.size else 0)).sum } := by
  intro i h
  have hmem := List.getElem_mem h
  have hu : regions[i].used = 0 := h0 _ hmem
  have hbi : regions[i].origin + regions[i].length ≤ USIZE_MAX := hb _ hmem
  have hb1 : (regions[i]).bounds.1 = regions[i].origin := rfl
  have hb2 : (regions[i]).bounds.2 = regions[i].origin + regions[i].length := by
    show (regions[i].origin + regions[i].length) % (USIZE_MAX + 1) = _
    exact Nat.mod_eq_of_lt (by omega)
  have hcond : (segments.map (fun seg =>
      if regions[i].origin ≤ seg.addr ∧ seg.addr ≤ regions[i].origin + regions[i].length
      then seg.size else 0)).sum ≤ (segments.map Segment.size).sum := by
    apply List.sum_le_sum
    intro seg _
    by_cases hc : regions[i].origin ≤ seg.addr ∧ seg.addr ≤ regions[i].origin + regions[i].length
    · simp [hc]
    · simp [hc]
  unfold use_segments_data
  rw [List.getElem?_map, List.getElem?_eq_getElem h]
  simp only [Option.map_some']
  congr 1
  unfold segUsed
  simp only [hb1, hb2, hu]
  rw [foldl_if_add_mod (fun seg =>
    regions[i].origin ≤ seg.addr ∧ seg.addr ≤ regions[i].origin + regions[i].length)
    segments 0 (by simpa using le_trans hcond hs)]
  simp

/-- C6 witness: one region `[0x1000, 0x2000]` and three segments, two inside
the inclusive bounds (one exactly at `origin + length`), one outside; all
side conditions hold at these small values. -/
theorem c6_witness :
    (use_segments_data [{ name := "RAM", origin := 4096, length := 4096, used := 0 }]
        [⟨4096, 1280⟩, ⟨8192, 3⟩, ⟨8193, 9⟩])[0]? =
      some { name := "RAM", origin := 4096, length := 4096, used := 1283 } := by
  have h := c6_correlator_used_sum
    [{ name := "RAM", origin := 4096, length := 4096, used := 0 }]
    [⟨4096, 1280⟩, ⟨8192, 3⟩, ⟨8193, 9⟩] (by decide) (by decide) (by decide) 0 (by decide)
  simpa using h

/-- C9: the origin-unit guess of `demangle.rs` returns `core` for
`core::fmt::Formatter::write_str` (leading `identifier::` prefix), falls
back to the trait's unit `core` on `<bool as core::fmt::Display>::fmt`
(where `bool` is not capturable as a leading `identifier::`), and returns
`?` whenever neither pattern can match — in particular for any input
containing no `:` at all. -/
theorem c9_origin_unit_guess :
    crate_name_from_demangled "core::fmt::Formatter::write_str" = "core" ∧
    crate_name_from_demangled "<bool as core::fmt::Display>::fmt" = "core" ∧
    ∀ s : String, (∀ c ∈ s.data, c ≠ ':') → crate_name_from_demangled s = "?" := by
  refine ⟨by decide, by decide, ?_⟩
  intro s h
  have h5 : ∀ c ∈ qualStrip s.data, c ≠ ':' := fun c hc => h c (qualStrip_subset _ hc)
  unfold crate_name_from_demangled
  rw [wordRunColon_eq_none_of_no_colon _ h5, findAsUnit_eq_none_of_no_colon _ h5]

/-- C9 witness: a colon-free input takes the `?` fallback. -/
theorem c9_witness : crate_name_from_demangled "hello_world" = "?" :=
  c9_origin_unit_guess.2.2 "hello_world" (by decide)

lemma lineStep_error_of_var (vars : List (String × Nat)) (regs : List MemoryRegion)
    (line n v : String) (hc : varCaptures line = some (n, v))
    (hu : valueUnresolvable vars v) :
    lineStep (vars, regs) line = Except.error ("Cant find value for variable " ++ v) := by
  simp only [lineStep, hc, parse_var, parse_value_error_of_unresolvable vars v hu]
  rfl

lemma lineStep_error_of_region_slot1 (vars : List (String × Nat)) (regs : List MemoryRegion)
    (line nm k1 v1 k2 v2 : String) (hv : varCaptures line = none)
    (hm : memRegCaptures line = some (nm, k1, v1, k2, v2))
    (hk1 : k1 = "ORIGIN" ∨ k1 = "LENGTH")
    (hu : valueUnresolvable vars v1) :
    lineStep (vars, regs) line = Except.error ("Cant find value for variable " ++ v1) := by
  rcases hk1 with rfl | rfl
  all_goals
    simp only [lineStep, hv, hm, parse_region, assignSlot]
    simp [parse_value_error_of_unresolvable vars v1 hu, Except.map, Except.bind]
    rfl

lemma lineStep_error_of_region_slot2 (vars : List (String × Nat)) (regs : List MemoryRegion)
    (line nm k1 v1 k2 v2 : String) (o : Nat) (hv : varCaptures line = none)
    (hm : memRegCaptures line = some (nm, k1, v1, k2, v2))
    (hk1 : k1 = "ORIGIN" ∨ k1 = "LENGTH")
    (ho : parse_value vars v1 = Except.ok o)
    (hk2 : k2 = "ORIGIN" ∨ k2 = "LENGTH")
    (hu : valueUnresolvable vars v2) :
    lineStep (vars, regs) line = Except.error ("Cant find value for variable " ++ v2) := by
  rcases hk1 with rfl | rfl <;> rcases hk2 with rfl | rfl
  all_goals
    simp only [lineStep, hv, hm, parse_region, assignSlot]
    simp [ho, parse_value_error_of_unresolvable vars v2 hu, Except.map, Except.bind]
    rfl

/-- C8: when any line of the script assigns or uses a value that is neither
a parsable literal nor a previously defined variable, `from_file` returns an
error for the whole script — whatever regions earlier lines declared and
whatever lines follow, no region list is produced.  The region-declaration
cases cover both keyword orders (`ORIGIN` first or `LENGTH` first, as the
source's slot loop accepts) and a failure in either slot. -/
theorem c8_abort_on_unresolved_variable
    (pre post : List String) (line : String)
    (vars : List (String × Nat)) (regs : List MemoryRegion)
    (hpre : pre.foldlM lineStep (([], []) : List (String × Nat) × List MemoryRegion)
      = Except.ok (vars, regs))
    (hline :
      (∃ n v, varCaptures line = some (n, v) ∧ valueUnresolvable vars v) ∨
      (∃ nm k1 v1 k2 v2, varCaptures line = none ∧
        memRegCaptures line = some (nm, k1, v1, k2, v2) ∧
        (k1 = "ORIGIN" ∨ k1 = "LENGTH") ∧ valueUnresolvable vars v1) ∨
      (∃ nm k1 v1 k2 v2 o, varCaptures line = none ∧
        memRegCaptures line = some (nm, k1, v1, k2, v2) ∧
        (k1 = "ORIGIN" ∨ k1 = "LENGTH") ∧ parse_value vars v1 = Except.ok o ∧
        (k2 = "ORIGIN" ∨ k2 = "LENGTH") ∧ valueUnresolvable vars v2)) :
    ∃ msg, from_file_lines (pre ++ line :: post) = Except.error msg := by
  have hstep : ∃ msg, lineStep (vars, regs) line = Except.error msg := by
    rcases hline with ⟨n, v, hc, hu⟩ | ⟨nm, k1, v1, k2, v2, hv, hm, hk1, hu⟩ |
      ⟨nm, k1, v1, k2, v2, o, hv, hm, hk1, ho, hk2, hu⟩
    · exact ⟨_, lineStep_error_of_var vars regs line n v hc hu⟩
    · exact ⟨_, lineStep_error_of_region_slot1 vars regs line nm k1 v1 k2 v2 hv hm hk1 hu⟩
    · exact ⟨_, lineStep_error_of_region_slot2 vars regs line nm k1 v1 k2 v2 o hv hm hk1 ho hk2 hu⟩
  obtain ⟨msg, hmsg⟩ := hstep
  refine ⟨msg, ?_⟩
  unfold from_file_lines
  rw [List.foldlM_append, hpre]
  show Except.map Prod.snd
    (lineStep (vars, regs) line >>= fun b => List.foldlM lineStep b post) = _
  rw [hmsg]
  rfl

/-- C8 witness: a single-line, `LENGTH`-first declaration whose `ORIGIN`
value references the undefined variable `__undef` aborts with an error. -/
theorem c8_witness :
    ∃ msg, from_file_lines ["RAM : LENGTH = 8K, ORIGIN = __undef"] = Except.error msg :=
  c8_abort_on_unresolved_variable [] [] "RAM : LENGTH = 8K, ORIGIN = __undef" [] []
    (by rfl)
    (Or.inr (Or.inr ⟨"RAM", "LENGTH", "8K", "ORIGIN", "__undef", 8192,
      by decide, by decide, Or.inr rfl, by decide, Or.inl rfl, by decide⟩))

lemma lastIdxOf_eq_none (c : Char) (l : List Char) (h : ∀ x ∈ l, x ≠ c) :
    lastIdxOf c l = none := by
  induction l with
  | nil => rfl
  | cons a t ih =>
    unfold lastIdxOf
    rw [ih (fun x hx => h x (List.mem_cons_of_mem a hx))]
    simp [h a (List.mem_cons_self a t)]

lemma stripHash_of_no_colon (s : String) (h : ∀ c ∈ s.data, c ≠ ':') :
    stripHash s = some s := by
  unfold stripHash
  rw [lastIdxOf_eq_none ':' s.data h]

/-- C4, counterexample: the claim is false.  `parse` builds the display name
with the local `demangle` of `exe.rs`, which never invokes the C++-style
scheme: for the raw name `_ZN3foo3barEv` — left unchanged by the native
scheme (instantiated as `id`) while a C++-style demangler succeeds on it
with `foo::bar()` — the model keeps the raw name, not the C++ form. -/
theorem c4_counterexample :
    ¬ (∀ (rustDemangle : String → String) (cppDemangle : String → Option String)
        (e : RawSymbolEntry) (v : String),
        rustDemangle e.name = e.name → cppDemangle e.name = some v →
        (mkSymbol rustDemangle e).map Symbol.name = some v) := by
  intro hclaim
  have h := hclaim id (fun _ => some "foo::bar()")
    { name := "_ZN3foo3barEv", size := 0, addr := 0, kind := ObjSymbolKind.Text }
    "foo::bar()" rfl rfl
  exact absurd h (by decide)

/-- C4, amended: for every symbol-table entry whose raw name the native
(Rust) scheme leaves unchanged, the display name in the model is the raw
name with the trailing-hash strip applied (truncation one character before
its last `:`); C++-style demangling is never attempted by `parse`.  In
particular a raw name containing no `:` is kept exactly. -/
theorem c4_amended_display_name (rustDemangle : String → String) (e : RawSymbolEntry)
    (h : rustDemangle e.name = e.name) :
    (mkSymbol rustDemangle e).map Symbol.name = stripHash e.name ∧
    ((∀ c ∈ e.name.data, c ≠ ':') → (mkSymbol rustDemangle e).map Symbol.name = some e.name) := by
  have he : exeDemangle rustDemangle e.name = stripHash e.name := by
    rw [exeDemangle, h]
  constructor
  · cases hsh : stripHash e.name with
    | none => simp [mkSymbol, demangleCrate, he, hsh]
    | some nm => simp [mkSymbol, demangleCrate, he, hsh]
  · intro hnc
    simp [mkSymbol, demangleCrate, he, stripHash_of_no_colon e.name hnc]

/-- C4 witness for the amended claim at the colon-free raw name `abc`. -/
theorem c4_amended_witness :
    (mkSymbol id { name := "abc", size := 1, addr := 2, kind := ObjSymbolKind.Text }).map
      Symbol.name = some "abc" :=
  (c4_amended_display_name id
    { name := "abc", size := 1, addr := 2, kind := ObjSymbolKind.Text } rfl).2 (by decide)

lemma fixStep_kind_pred (P : SymbolKind → Prop) (l : List Symbol) (i : Nat)
    (h : ∀ s ∈ l, P s.kind) : ∀ s ∈ fixStep l i, P s.kind := by
  intro s hs
  unfold fixStep at hs
  cases hli : l[i]? with
  | none => simp only [hli] at hs; exact h s hs
  | some sym =>
    have hsymmem : sym ∈ l := by
      obtain ⟨hb, hev⟩ := List.getElem?_eq_some.mp hli
      exact hev ▸ List.getElem_mem hb
    simp only [hli] at hs
    by_cases hsz : sym.size = 0
    · rw [if_pos hsz] at hs
      cases hm : ((l.drop i).dropWhile fun t => t.addr == sym.addr).head? with
      | none => simp only [hm] at hs; exact h s hs
      | some next =>
        simp only [hm] at hs
        by_cases hlt : sym.addr < next.addr
        · rw [if_pos hlt] at hs
          rcases List.mem_or_eq_of_mem_set hs with hmem | heq
          · exact h s hmem
          · subst heq; exact h sym hsymmem
        · rw [if_neg hlt] at hs; exact h s hs
    · rw [if_neg hsz] at hs; exact h s hs

lemma foldl_fixStep_kind_pred (P : SymbolKind → Prop) (idxs : List Nat) (l : List Symbol)
    (h : ∀ s ∈ l, P s.kind) : ∀ s ∈ idxs.foldl fixStep l, P s.kind := by
  induction idxs generalizing l with
  | nil => exact h
  | cons i t ih => exact ih _ (fixStep_kind_pred P l i h)

lemma fixSizes_kind_pred (P : SymbolKind → Prop) (l out : List Symbol)
    (hf : fixSizes l = some out) (h : ∀ s ∈ l, P s.kind) : ∀ s ∈ out, P s.kind := by
  unfold fixSizes at hf
  by_cases hl : l.length = 0
  · simp [hl] at hf
  · simp only [hl, if_false] at hf
    cases hf
    exact foldl_fixStep_kind_pred P _ l h

lemma sortByAddr_subset (l : List Symbol) : sortByAddr l ⊆ l :=
  (List.perm_insertionSort _ _).subset

lemma parseSymbols_not_unknown (rustDemangle : String → String)
    (entries : List RawSymbolEntry) (out : List Symbol)
    (h : parseSymbols rustDemangle entries = some out) :
    ∀ s ∈ out, s.kind ≠ SymbolKind.Unknown := by
  unfold parseSymbols at h
  obtain ⟨syms, hm, h⟩ := Option.bind_eq_some.mp h
  obtain ⟨fixed, hf, h⟩ := Option.bind_eq_some.mp h
  obtain rfl : fixed = out := Option.some.inj h
  intro s hs
  have hfilter : ∀ x ∈ syms.filter (fun s => decide (s.kind ≠ SymbolKind.Unknown)),
      x.kind ≠ SymbolKind.Unknown := by
    intro x hx
    simpa using List.of_mem_filter hx
  have hsorted : ∀ x ∈ sortByAddr (syms.filter (fun s => decide (s.kind ≠ SymbolKind.Unknown))),
      x.kind ≠ SymbolKind.Unknown :=
    fun x hx => hfilter x (sortByAddr_subset _ hx)
  exact fixSizes_kind_pred (fun k => k ≠ SymbolKind.Unknown) _ _ hf hsorted s hs

/-- C5: whenever `parse` returns a model, every symbol in it has kind
`Function` or `Data`; `Unknown`-kind entries are filtered out before the
model is assembled. -/
theorem c5_retained_symbol_kinds (rustDemangle : String → String)
    (segments : List Segment) (sections : List ExeSection)
    (entries : List RawSymbolEntry) (model : ExecutableInfo)
    (h : parseModel rustDemangle segments sections entries = some model) :
    ∀ s ∈ model.symbols, s.kind = SymbolKind.Function ∨ s.kind = SymbolKind.Data := by
  unfold parseModel at h
  obtain ⟨syms, hp, h⟩ := Option.bind_eq_some.mp h
  obtain rfl : ({ symbols := syms, sections := sections, segments := segments } :
      ExecutableInfo) = model := Option.some.inj h
  intro s hs
  have hne := parseSymbols_not_unknown rustDemangle entries syms hp s hs
  cases hk : s.kind with
  | Unknown => exact absurd hk hne
  | Function => exact Or.inl rfl
  | Data => exact Or.inr rfl

/-- C5 witness: a single `Text`-kind entry yields a model whose only symbol
has kind `Function`. -/
theorem c5_witness :
    (⟨"f", "?", 0, 4, SymbolKind.Function⟩ : Symbol).kind = SymbolKind.Function ∨
    (⟨"f", "?", 0, 4, SymbolKind.Function⟩ : Symbol).kind = SymbolKind.Data :=
  c5_retained_symbol_kinds id [] [] [⟨"f", 0, 4, ObjSymbolKind.Text⟩]
    ⟨[⟨"f", "?", 0, 4, SymbolKind.Function⟩], [], []⟩
    (by decide) _ (by decide)

/-- The repaired value C1 specifies for a zero-size symbol `x` at index `i`:
find the next symbol at a strictly greater address among the following
entries; when it exists the size becomes the address difference, otherwise
the symbol is unchanged (size stays 0). -/
def repairSpec (l : List Symbol) (i : Nat) (x : Symbol) : Symbol :=
  match (l.drop (i + 1)).find? (fun s => decide (x.addr < s.addr)) with
  | some nxt => { x with size := nxt.addr - x.addr }
  | none => x

lemma head_dropWhile_addr_congr (c : Nat) :
    ∀ (l₁ l₂ : List Symbol), l₁.map Symbol.addr = l₂.map Symbol.addr →
    ((l₁.dropWhile (fun s => s.addr == c)).head?).map Symbol.addr
      = ((l₂.dropWhile (fun s => s.addr == c)).head?).map Symbol.addr := by
  intro l₁
  induction l₁ with
  | nil =>
    intro l₂ h
    cases l₂ with
    | nil => rfl
    | cons b u => simp at h
  | cons a t ih =>
    intro l₂ h
    cases l₂ with
    | nil => simp at h
    | cons b u =>
      simp only [List.map_cons, List.cons.injEq] at h
      obtain ⟨hab, htu⟩ := h
      rw [List.dropWhile_cons, List.dropWhile_cons]
      have hpred : (a.addr == c) = (b.addr == c) := by rw [hab]
      rw [hpred]
      by_cases hbc : (b.addr == c) = true
      · rw [if_pos hbc, if_pos hbc]
        exact ih u htu
      · rw [if_neg hbc, if_neg hbc]
        simp [hab]

lemma dropWhile_head_eq_find (c : Nat) (t : List Symbol) (hall : ∀ s ∈ t, c ≤ s.addr) :
    (t.dropWhile (fun s => s.addr == c)).head? = t.find? (fun s => decide (c < s.addr)) := by
  induction t with
  | nil => rfl
  | cons y u ih =>
    have hy : c ≤ y.addr := hall y (List.mem_cons_self y u)
    have hu : ∀ s ∈ u, c ≤ s.addr := fun s hs => hall s (List.mem_cons_of_mem y hs)
    rw [List.dropWhile_cons]
    by_cases hyc : y.addr = c
    · have hbeq : (y.addr == c) = true := by simpa using hyc
      have hlt : ¬ (decide (c < y.addr) = true) := by simp [hyc]
      rw [if_pos hbeq, @List.find?_cons_of_neg _ (fun s => decide (c < s.addr)) y u hlt]
      exact ih hu
    · have hbeq : ¬ ((y.addr == c) = true) := by simpa using hyc
      have hlt : decide (c < y.addr) = true := by
        simp only [decide_eq_true_eq]
        omega
      rw [if_neg hbeq, @List.find?_cons_of_pos _ (fun s => decide (c < s.addr)) y u hlt]
      rfl

lemma sorted_le_of_drop (l : List Symbol) (hsort : l.Pairwise (fun s t => s.addr ≤ t.addr))
    (k : Nat) (hk : k < l.length) : ∀ s ∈ l.drop (k + 1), (l[k]).addr ≤ s.addr := by
  intro s hs
  obtain ⟨j, hj, rfl⟩ := List.mem_iff_getElem.mp hs
  rw [List.getElem_drop]
  have hjl : k + 1 + j < l.length := by
    rw [List.length_drop] at hj
    omega
  exact List.pairwise_iff_getElem.mp hsort k (k + 1 + j) hk hjl (by omega)

lemma fixLoop_invariant (l : List Symbol)
    (hsort : l.Pairwise (fun s t => s.addr ≤ t.addr)) :
    ∀ k, k ≤ l.length - 1 →
      ((List.range k).foldl fixStep l).length = l.length ∧
      (∀ j : Nat, (((List.range k).foldl fixStep l)[j]?).map Symbol.addr
        = (l[j]?).map Symbol.addr) ∧
      (∀ j : Nat, k ≤ j → ((List.range k).foldl fixStep l)[j]? = l[j]?) ∧
      (∀ j : Nat, j < k → ((List.range k).foldl fixStep l)[j]? =
        (l[j]?).map (fun x => if x.size = 0 then repairSpec l j x else x)) := by
  intro k
  induction k with
  | zero =>
    intro _
    exact ⟨rfl, fun _ => rfl, fun _ _ => rfl, fun j hj => absurd hj (Nat.not_lt_zero j)⟩
  | succ k ih =>
    intro hk1
    have hk : k ≤ l.length - 1 := Nat.le_of_succ_le hk1
    obtain ⟨hlen, haddr, hkeep, hdone⟩ := ih hk
    have hklen : k < l.length := by omega
    set A := (List.range k).foldl fixStep l with hA
    have hstep : (List.range (k + 1)).foldl fixStep l = fixStep A k := by
      rw [List.range_succ, List.foldl_append, List.foldl_cons, List.foldl_nil]
    have hak : A[k]? = some (l[k]) := by
      rw [hkeep k (Nat.le_refl k), List.getElem?_eq_getElem hklen]
    by_cases hsz : (l[k]).size = 0
    case neg =>
      have hfix : fixStep A k = A := by
        unfold fixStep
        rw [hak]
        simp [hsz]
      rw [hstep, hfix]
      refine ⟨hlen, haddr, fun j hj => hkeep j (by omega), fun j hj => ?_⟩
      rcases Nat.lt_or_ge j k with hjk | hjk
      · exact hdone j hjk
      · have hjeq : j = k := by omega
        subst hjeq
        rw [hak, List.getElem?_eq_getElem hklen, Option.map_some']
        simp [hsz]
    case pos =>
      have hmap : A.map Symbol.addr = l.map Symbol.addr := by
        apply List.ext_getElem?
        intro n
        rw [List.getElem?_map, List.getElem?_map, haddr n]
      have hdropmap : (A.drop k).map Symbol.addr = (l.drop k).map Symbol.addr := by
        rw [List.map_drop, List.map_drop, hmap]
      have hheads := head_dropWhile_addr_congr (l[k]).addr (A.drop k) (l.drop k) hdropmap
      have hldrop : l.drop k = l[k] :: l.drop (k + 1) := (List.getElem_cons_drop l k hklen).symm
      have hfind : ((l.drop k).dropWhile (fun s => s.addr == (l[k]).addr)).head?
          = (l.drop (k + 1)).find? (fun s => decide ((l[k]).addr < s.addr)) := by
        rw [hldrop, List.dropWhile_cons, if_pos (by simp)]
        exact dropWhile_head_eq_find (l[k]).addr (l.drop (k + 1))
          (sorted_le_of_drop l hsort k hklen)
      rw [hfind] at hheads
      cases hfq : (l.drop (k + 1)).find? (fun s => decide ((l[k]).addr < s.addr)) with
      | none =>
        rw [hfq, Option.map_none'] at hheads
        have hnone : ((A.drop k).dropWhile (fun s => s.addr == (l[k]).addr)).head? = none :=
          Option.map_eq_none'.mp hheads
        have hfix : fixStep A k = A := by
          unfold fixStep
          rw [hak]
          simp [hsz, hnone]
        rw [hstep, hfix]
        refine ⟨hlen, haddr, fun j hj => hkeep j (by omega), fun j hj => ?_⟩
        rcases Nat.lt_or_ge j k with hjk | hjk
        · exact hdone j hjk
        · have hjeq : j = k := by omega
          subst hjeq
          rw [hak, List.getElem?_eq_getElem hklen, Option.map_some']
          simp [hsz, repairSpec, hfq]
      | some nxt =>
        have hlt : (l[k]).addr < nxt.addr := by simpa using List.find?_some hfq
        rw [hfq, Option.map_some'] at hheads
        obtain ⟨next, hnext, hnaddr⟩ := Option.map_eq_some'.mp hheads
        have hfix : fixStep A k = A.set k { l[k] with size := nxt.addr - (l[k]).addr } := by
          unfold fixStep
          rw [hak]
          simp only [hsz, if_true, hnext]
          rw [if_pos (by rw [hnaddr]; exact hlt), hnaddr]
        have hklenA : k < A.length := by rw [hlen]; exact hklen
        rw [hstep, hfix]
        refine ⟨by rw [List.length_set]; exact hlen, ?_, ?_, ?_⟩
        · intro j
          rcases eq_or_ne k j with rfl | hkj
          · rw [List.getElem?_set_self hklenA, List.getElem?_eq_getElem hklen, Option.map_some',
              Option.map_some']
          · rw [List.getElem?_set_ne hkj]
            exact haddr j
        · intro j hj
          rw [List.getElem?_set_ne (by omega)]
          exact hkeep j (by omega)
        · intro j hj
          rcases Nat.lt_or_ge j k with hjk | hjk
          · rw [List.getElem?_set_ne (by omega)]
            exact hdone j hjk
          · have hjeq : j = k := by omega
            subst hjeq
            rw [List.getElem?_set_self hklenA, List.getElem?_eq_getElem hklen, Option.map_some']
            simp [hsz, repairSpec, hfq]

/-- C1: on a nonempty symbol list sorted by ascending address, the repair
loop rewrites exactly the zero-size symbols that are not the last element:
each such symbol's size becomes `a2 - a1` where `a2` is the address of the
next symbol at a strictly greater address, or stays 0 when no such symbol
follows (`Nat` subtraction of a strictly larger value — never negative);
symbols with nonzero size, and the last symbol, are left unmodified. -/
theorem c1_zero_size_repair (l : List Symbol)
    (hsort : l.Pairwise (fun s t => s.addr ≤ t.addr)) (hne : l ≠ []) :
    ∃ out, fixSizes l = some out ∧ out.length = l.length ∧
      ∀ i (h : i < l.length),
        out[i]? = some (if i + 1 < l.length ∧ (l[i]).size = 0
          then repairSpec l i (l[i]) else l[i]) := by
  have hlen0 : l.length ≠ 0 := by
    have := List.length_pos.mpr hne
    omega
  obtain ⟨hlen, _haddr, hkeep, hdone⟩ := fixLoop_invariant l hsort (l.length - 1) (Nat.le_refl _)
  refine ⟨(List.range (l.length - 1)).foldl fixStep l, by rw [fixSizes, if_neg hlen0], hlen, ?_⟩
  intro i hi
  by_cases hilast : i + 1 < l.length
  · have hid : i < l.length - 1 := by omega
    rw [hdone i hid, List.getElem?_eq_getElem hi, Option.map_some']
    by_cases hsz : (l[i]).size = 0
    · simp [hsz, hilast]
    · simp [hsz, hilast]
  · have hge : l.length - 1 ≤ i := by omega
    rw [hkeep i hge, List.getElem?_eq_getElem hi]
    simp [hilast]

/-- C1 witness: two zero-size symbols sharing address 10 both get size
`14 - 10 = 4`, the nonzero-size symbol at 14 is untouched, and the last
zero-size symbol at 20 keeps size 0. -/
theorem c1_witness :
    ∃ out, fixSizes
        [⟨"a", "?", 0, 10, SymbolKind.Function⟩, ⟨"b", "?", 0, 10, SymbolKind.Function⟩,
         ⟨"c", "?", 7, 14, SymbolKind.Data⟩, ⟨"d", "?", 0, 20, SymbolKind.Data⟩] = some out ∧
      out.length = ([⟨"a", "?", 0, 10, SymbolKind.Function⟩, ⟨"b", "?", 0, 10, SymbolKind.Function⟩,
         ⟨"c", "?", 7, 14, SymbolKind.Data⟩, ⟨"d", "?", 0, 20, SymbolKind.Data⟩] : List Symbol).length ∧
      ∀ i (h : i < ([⟨"a", "?", 0, 10, SymbolKind.Function⟩, ⟨"b", "?", 0, 10, SymbolKind.Function⟩,
         ⟨"c", "?", 7, 14, SymbolKind.Data⟩, ⟨"d", "?", 0, 20, SymbolKind.Data⟩] : List Symbol).length),
        out[i]? = some (if i + 1 < ([⟨"a", "?", 0, 10, SymbolKind.Function⟩,
            ⟨"b", "?", 0, 10, SymbolKind.Function⟩, ⟨"c", "?", 7, 14, SymbolKind.Data⟩,
            ⟨"d", "?", 0, 20, SymbolKind.Data⟩] : List Symbol).length ∧
          (([⟨"a", "?", 0, 10, SymbolKind.Function⟩, ⟨"b", "?", 0, 10, SymbolKind.Function⟩,
            ⟨"c", "?", 7, 14, SymbolKind.Data⟩, ⟨"d", "?", 0, 20, SymbolKind.Data⟩] :
            List Symbol)[i]).size = 0
          then repairSpec [⟨"a", "?", 0, 10, SymbolKind.Function⟩,
            ⟨"b", "?", 0, 10, SymbolKind.Function⟩, ⟨"c", "?", 7, 14, SymbolKind.Data⟩,
            ⟨"d", "?", 0, 20, SymbolKind.Data⟩] i
            (([⟨"a", "?", 0, 10, SymbolKind.Function⟩, ⟨"b", "?", 0, 10, SymbolKind.Function⟩,
              ⟨"c", "?", 7, 14, SymbolKind.Data⟩, ⟨"d", "?", 0, 20, SymbolKind.Data⟩] :
              List Symbol)[i])
          else ([⟨"a", "?", 0, 10, SymbolKind.Function⟩, ⟨"b", "?", 0, 10, SymbolKind.Function⟩,
            ⟨"c", "?", 7, 14, SymbolKind.Data⟩, ⟨"d", "?", 0, 20, SymbolKind.Data⟩] :
            List Symbol)[i]) :=
  c1_zero_size_repair
    [⟨"a", "?", 0, 10, SymbolKind.Function⟩, ⟨"b", "?", 0, 10, SymbolKind.Function⟩,
     ⟨"c", "?", 7, 14, SymbolKind.Data⟩, ⟨"d", "?", 0, 20, SymbolKind.Data⟩]
    (by decide) (by decide)

end Binsize
